import Mathlib

/-!
Verification of the board/post content API (in-memory stores).

The embedding follows the source services:
* `BoardService` embeds `src/src/board/board.service.ts` (in-memory store:
  fields `boards : Board[]`, `nextId = 1`, operations `create`, `findAll`,
  `findOne`, `update`, `remove`).
* `PostService` embeds the in-memory `PostService`
  (`create` validates `boardId` against `BoardService.findOne` and turns its
  `NotFoundException` into a `BadRequestException`; `findAll` takes an optional
  `boardId` filter; `findOne`, `update`, `remove` mirror the board ones).
* JavaScript `Date` values are modelled as abstract `Nat` timestamps supplied
  to every mutating operation as a `now` argument.
* A TS update DTO field distinguishes absent (`undefined`), explicit `null`
  and a provided string; this is modelled as `Option (Option String)`:
  `none` = absent, `some none` = explicit null, `some (some v)` = value `v`.
* Thrown exceptions become `Except ApiError` results; since a method throws
  before performing any mutation, the state at the throw point is the entry
  state, which the pair-returning operations return unchanged.
-/

namespace NestPractice

/-- Error kinds raised by the services: `NotFoundException` and
`BadRequestException`, each carrying its message. -/
inductive ApiError where
  | notFound (msg : String)
  | badRequest (msg : String)
deriving DecidableEq

/-- `Board` entity: id, title, description, createdAt, updatedAt,
deletedAt (null ⇔ active). -/
structure Board where
  id : Nat
  title : String
  description : String
  createdAt : Nat
  updatedAt : Nat
  deletedAt : Option Nat
deriving DecidableEq

/-- `Post` entity: id, boardId, title, content, createdAt, updatedAt,
deletedAt (null ⇔ active). -/
structure Post where
  id : Nat
  boardId : Nat
  title : String
  content : String
  createdAt : Nat
  updatedAt : Nat
  deletedAt : Option Nat
deriving DecidableEq

/-- `CreateBoardDto`: required title and description strings. -/
structure CreateBoardDto where
  title : String
  description : String
deriving DecidableEq

/-- `UpdateBoardDto`: optional title/description, each possibly absent
(`none`), explicitly null (`some none`) or provided (`some (some v)`). -/
structure UpdateBoardDto where
  title : Option (Option String)
  description : Option (Option String)
deriving DecidableEq

/-- `CreatePostDto`: boardId plus required title and content. -/
structure CreatePostDto where
  boardId : Nat
  title : String
  content : String
deriving DecidableEq

/-- `UpdatePostDto`: optional title/content. -/
structure UpdatePostDto where
  title : Option (Option String)
  content : Option (Option String)
deriving DecidableEq

/-- In-place mutation of the first array element satisfying `p` (the element
`Array.prototype.find` would return), leaving every other element alone. -/
def updateFirst (p : α → Bool) (f : α → α) : List α → List α
  | [] => []
  | x :: xs => if p x then f x :: xs else x :: updateFirst p f xs

/-- State of `BoardService`: the `boards` array and the `nextId` counter. -/
structure BoardState where
  boards : List Board
  nextId : Nat
deriving DecidableEq

/-- State of `PostService`: the `posts` array and the `nextId` counter. -/
structure PostState where
  posts : List Post
  nextId : Nat
deriving DecidableEq

namespace BoardService

/-- Initial service state: empty array, `nextId = 1`. -/
def init : BoardState := ⟨[], 1⟩

/-- `BoardService.create`: allocates `nextId` (then increments it), sets
`createdAt = updatedAt = now`, `deletedAt = null`, pushes the new board. -/
def create (s : BoardState) (dto : CreateBoardDto) (now : Nat) :
    Board × BoardState :=
  let board : Board := ⟨s.nextId, dto.title, dto.description, now, now, none⟩
  (board, ⟨s.boards ++ [board], s.nextId + 1⟩)

/-- The predicate of `findOne`'s `find`: matching id and not soft-deleted. -/
def activeWithId (id : Nat) (b : Board) : Bool :=
  b.id == id && b.deletedAt.isNone

/-- `BoardService.findAll`: the boards whose `deletedAt` is null. -/
def findAll (s : BoardState) : List Board :=
  s.boards.filter (fun b => b.deletedAt.isNone)

/-- `BoardService.findOne`: first board with matching id and `deletedAt`
null; throws `NotFoundException` otherwise. -/
def findOne (s : BoardState) (id : Nat) : Except ApiError Board :=
  match s.boards.find? (activeWithId id) with
  | some b => .ok b
  | none =>
      .error (.notFound ("Board with ID " ++ toString id ++ " not found"))

/-- The field mutations `BoardService.update` performs on the found board:
overwrite title/description only when neither `undefined` nor `null`,
always refresh `updatedAt`. -/
def applyUpdate (dto : UpdateBoardDto) (now : Nat) (b : Board) : Board :=
  { b with
    title := match dto.title with
      | some (some t) => t
      | _ => b.title
    description := match dto.description with
      | some (some d) => d
      | _ => b.description
    updatedAt := now }

/-- `BoardService.update`: looks the board up via `findOne` (propagating its
`NotFoundException`), mutates the found array element in place via
`applyUpdate`, returns the mutated board. -/
def update (s : BoardState) (id : Nat) (dto : UpdateBoardDto) (now : Nat) :
    Except ApiError (Board × BoardState) :=
  match findOne s id with
  | .error e => .error e
  | .ok b =>
      .ok (applyUpdate dto now b,
        ⟨updateFirst (activeWithId id) (applyUpdate dto now) s.boards,
          s.nextId⟩)

/-- `BoardService.remove`: looks the board up via `findOne` (propagating its
`NotFoundException`), sets `deletedAt = now` on the found array element. -/
def remove (s : BoardState) (id : Nat) (now : Nat) :
    Except ApiError BoardState :=
  match findOne s id with
  | .error e => .error e
  | .ok _ =>
      .ok ⟨updateFirst (activeWithId id)
            (fun b => { b with deletedAt := some now }) s.boards,
          s.nextId⟩

end BoardService

namespace PostService

/-- Initial service state: empty array, `nextId = 1`. -/
def init : PostState := ⟨[], 1⟩

/-- The predicate of `PostService.findOne`'s `find`. -/
def activeWithId (id : Nat) (p : Post) : Bool :=
  p.id == id && p.deletedAt.isNone

/-- `PostService.create`: first calls `BoardService.findOne(dto.boardId)`;
any thrown error is caught and re-raised as `BadRequestException` with the
state untouched (the throw happens before `nextId++` and the push); on
success allocates the next id and pushes the post with
`createdAt = updatedAt = now`, `deletedAt = null`. -/
def create (bs : BoardState) (s : PostState) (dto : CreatePostDto)
    (now : Nat) : Except ApiError Post × PostState :=
  match BoardService.findOne bs dto.boardId with
  | .error _ =>
      (.error (.badRequest
          ("Board with ID " ++ toString dto.boardId ++ " not found")), s)
  | .ok _ =>
      let p : Post :=
        ⟨s.nextId, dto.boardId, dto.title, dto.content, now, now, none⟩
      (.ok p, ⟨s.posts ++ [p], s.nextId + 1⟩)

/-- `PostService.findAll`: with a `boardId` filter, the active posts of that
board; without, all active posts. -/
def findAll (s : PostState) (boardId : Option Nat) : List Post :=
  match boardId with
  | some bid =>
      s.posts.filter (fun p => p.boardId == bid && p.deletedAt.isNone)
  | none => s.posts.filter (fun p => p.deletedAt.isNone)

/-- `PostService.findOne`: first post with matching id and `deletedAt` null;
throws `NotFoundException` otherwise. -/
def findOne (s : PostState) (id : Nat) : Except ApiError Post :=
  match s.posts.find? (activeWithId id) with
  | some p => .ok p
  | none =>
      .error (.notFound ("Post with ID " ++ toString id ++ " not found"))

/-- The field mutations `PostService.update` performs on the found post. -/
def applyUpdate (dto : UpdatePostDto) (now : Nat) (p : Post) : Post :=
  { p with
    title := match dto.title with
      | some (some t) => t
      | _ => p.title
    content := match dto.content with
      | some (some c) => c
      | _ => p.content
    updatedAt := now }

/-- `PostService.update`: mirror of `BoardService.update`. -/
def update (s : PostState) (id : Nat) (dto : UpdatePostDto) (now : Nat) :
    Except ApiError (Post × PostState) :=
  match findOne s id with
  | .error e => .error e
  | .ok p =>
      .ok (applyUpdate dto now p,
        ⟨updateFirst (activeWithId id) (applyUpdate dto now) s.posts,
          s.nextId⟩)

/-- `PostService.remove`: mirror of `BoardService.remove`. -/
def remove (s : PostState) (id : Nat) (now : Nat) :
    Except ApiError PostState :=
  match findOne s id with
  | .error e => .error e
  | .ok _ =>
      .ok ⟨updateFirst (activeWithId id)
            (fun p => { p with deletedAt := some now }) s.posts,
          s.nextId⟩

end PostService

/-- Modelled from the spec: `BoardService.searchPostsByBoard` is absent from
the sources (only `BoardController.searchPostsByBoard` calls it); per the
spec's interface table, `GET /boards/{id}/posts` returns the "sequence of
Posts with boardId == id" (the read-only cross-entity Query Façade). -/
def searchPostsByBoard (s : PostState) (boardId : Nat) : List Post :=
  s.posts.filter (fun p => p.boardId == boardId)

/-- Combined application state: the two singleton services' stores. -/
structure AppState where
  boardS : BoardState
  postS : PostState
deriving DecidableEq

/-- One store operation, as dispatched by the controllers. Read operations
are included so that runs may interleave them; they do not assign to any
service field. -/
inductive Op where
  | boardCreate (title description : String) (now : Nat)
  | boardList
  | boardGet (id : Nat)
  | boardUpdate (id : Nat) (dto : UpdateBoardDto) (now : Nat)
  | boardRemove (id : Nat) (now : Nat)
  | postCreate (boardId : Nat) (title content : String) (now : Nat)
  | postList (boardId : Option Nat)
  | postGet (id : Nat)
  | postUpdate (id : Nat) (dto : UpdatePostDto) (now : Nat)
  | postRemove (id : Nat) (now : Nat)
deriving DecidableEq

/-- Effect of one operation on the combined state. A thrown error leaves the
state as it was at the throw point (no mutation precedes any throw in the
source); read operations leave it untouched. -/
def appStep (s : AppState) (op : Op) : AppState :=
  match op with
  | .boardCreate t d now =>
      { s with boardS := (BoardService.create s.boardS ⟨t, d⟩ now).2 }
  | .boardList => s
  | .boardGet _ => s
  | .boardUpdate id dto now =>
      match BoardService.update s.boardS id dto now with
      | .error _ => s
      | .ok (_, bs) => { s with boardS := bs }
  | .boardRemove id now =>
      match BoardService.remove s.boardS id now with
      | .error _ => s
      | .ok bs => { s with boardS := bs }
  | .postCreate bid t c now =>
      { s with postS := (PostService.create s.boardS s.postS ⟨bid, t, c⟩ now).2 }
  | .postList _ => s
  | .postGet _ => s
  | .postUpdate id dto now =>
      match PostService.update s.postS id dto now with
      | .error _ => s
      | .ok (_, ps) => { s with postS := ps }
  | .postRemove id now =>
      match PostService.remove s.postS id now with
      | .error _ => s
      | .ok ps => { s with postS := ps }

/-- The state reached from the fresh services by a sequence of operations. -/
def appRun (ops : List Op) : AppState :=
  ops.foldl appStep ⟨BoardService.init, PostService.init⟩

/-- `true` exactly on board-create operations. -/
def Op.isBoardCreate : Op → Bool
  | .boardCreate _ _ _ => true
  | _ => false

/-- The operation supplies no empty board title: a board create carries a
non-empty title, a board update either omits the title (absent or explicit
null) or carries a non-empty one. Used by the amended C9. -/
def Op.boardTitlesNonempty : Op → Prop
  | .boardCreate t _ _ => t ≠ ""
  | .boardUpdate _ dto _ => ∀ t, dto.title = some (some t) → t ≠ ""
  | _ => True

end NestPractice

namespace NestPractice

/-! Helper lemmas about `updateFirst` (the in-place mutation of the element
`find` located) and the `findOne` lookups. -/

theorem updateFirst_length {α : Type} (p : α → Bool) (f : α → α)
    (l : List α) : (updateFirst p f l).length = l.length := by
  induction l with
  | nil => rfl
  | cons x xs ih =>
    simp only [updateFirst]
    split <;> simp [ih]

theorem updateFirst_getElem? {α : Type} (p : α → Bool) (f : α → α)
    (l : List α) (i : Nat) :
    (updateFirst p f l)[i]? = l[i]? ∨
      ∃ x, l[i]? = some x ∧ p x = true ∧
        (updateFirst p f l)[i]? = some (f x) := by
  induction l generalizing i with
  | nil => left; rfl
  | cons x xs ih =>
    by_cases hp : p x
    · cases i with
      | zero => right; exact ⟨x, by simp, hp, by simp [updateFirst, hp]⟩
      | succ j => left; simp [updateFirst, hp]
    · cases i with
      | zero => left; simp [updateFirst, hp]
      | succ j =>
        rcases ih j with h | ⟨y, hy, hpy, h2⟩
        · left; simp [updateFirst, hp, h]
        · right; exact ⟨y, by simp [hy], hpy, by simp [updateFirst, hp, h2]⟩

theorem updateFirst_getElem?_of_neg {α : Type} {p : α → Bool} {f : α → α}
    {l : List α} {i : Nat} {x : α} (hx : l[i]? = some x)
    (hp : p x = false) : (updateFirst p f l)[i]? = some x := by
  rcases updateFirst_getElem? p f l i with h | ⟨y, hy, hpy, _⟩
  · rw [h, hx]
  · rw [hx] at hy
    injection hy with h
    subst h
    simp [hp] at hpy

theorem updateFirst_mem {α : Type} {p : α → Bool} {f : α → α} {l : List α}
    {b : α} (hb : b ∈ updateFirst p f l) :
    b ∈ l ∨ ∃ x ∈ l, p x = true ∧ b = f x := by
  induction l with
  | nil => cases hb
  | cons x xs ih =>
    by_cases hp : p x
    · simp only [updateFirst, hp, if_true, List.mem_cons] at hb
      rcases hb with rfl | hb
      · right; exact ⟨x, by simp, hp, rfl⟩
      · left; simp [hb]
    · simp only [updateFirst, hp, if_false, Bool.false_eq_true,
        List.mem_cons] at hb
      rcases hb with rfl | hb
      · left; simp
      · rcases ih hb with h | ⟨y, hy, hpy, rfl⟩
        · left; simp [h]
        · right; exact ⟨y, by simp [hy], hpy, rfl⟩

theorem boardActive_iff (id : Nat) (b : Board) :
    BoardService.activeWithId id b = true ↔
      b.id = id ∧ b.deletedAt = none := by
  simp [BoardService.activeWithId, Option.isNone_iff_eq_none]

theorem boardFindOne_error (s : BoardState) (id : Nat) :
    (∃ e, BoardService.findOne s id = .error e) ↔
      ¬ ∃ b ∈ s.boards, b.id = id ∧ b.deletedAt = none := by
  unfold BoardService.findOne
  cases h : s.boards.find? (BoardService.activeWithId id) with
  | none =>
    simp only [h]
    constructor
    · rintro - ⟨b, hb, hid, hdel⟩
      have hne := List.find?_eq_none.1 h b hb
      exact hne ((boardActive_iff id b).2 ⟨hid, hdel⟩)
    · intro _
      exact ⟨_, rfl⟩
  | some b =>
    simp only [h]
    constructor
    · rintro ⟨e, he⟩
      simp at he
    · intro hno
      exfalso
      have hq := (boardActive_iff id b).1 (List.find?_some h)
      exact hno ⟨b, List.mem_of_find?_eq_some h, hq.1, hq.2⟩

theorem boardFindOne_error_shape (s : BoardState) (id : Nat)
    (e : ApiError) (h : BoardService.findOne s id = .error e) :
    e = .notFound ("Board with ID " ++ toString id ++ " not found") := by
  unfold BoardService.findOne at h
  cases hf : s.boards.find? (BoardService.activeWithId id) <;>
    rw [hf] at h <;> simp_all

theorem boardFindOne_ok (s : BoardState) (id : Nat) (b : Board)
    (h : BoardService.findOne s id = .ok b) :
    b ∈ s.boards ∧ b.id = id ∧ b.deletedAt = none := by
  unfold BoardService.findOne at h
  cases hf : s.boards.find? (BoardService.activeWithId id) <;> rw [hf] at h
  · simp at h
  · injection h with h
    subst h
    have hq := (boardActive_iff id _).1 (List.find?_some hf)
    exact ⟨List.mem_of_find?_eq_some hf, hq.1, hq.2⟩

theorem boardFindOne_ok_exists (s : BoardState) (id : Nat)
    (h : ∃ b ∈ s.boards, b.id = id ∧ b.deletedAt = none) :
    ∃ b, BoardService.findOne s id = .ok b := by
  unfold BoardService.findOne
  cases hf : s.boards.find? (BoardService.activeWithId id) with
  | none =>
    obtain ⟨b, hb, hid, hdel⟩ := h
    have hne := List.find?_eq_none.1 hf b hb
    exact absurd ((boardActive_iff id b).2 ⟨hid, hdel⟩) hne
  | some b => exact ⟨b, rfl⟩

theorem postActive_iff (id : Nat) (p : Post) :
    PostService.activeWithId id p = true ↔
      p.id = id ∧ p.deletedAt = none := by
  simp [PostService.activeWithId, Option.isNone_iff_eq_none]

theorem postFindOne_error (s : PostState) (id : Nat) :
    (∃ e, PostService.findOne s id = .error e) ↔
      ¬ ∃ p ∈ s.posts, p.id = id ∧ p.deletedAt = none := by
  unfold PostService.findOne
  cases h : s.posts.find? (PostService.activeWithId id) with
  | none =>
    simp only [h]
    constructor
    · rintro - ⟨p, hp, hid, hdel⟩
      have hne := List.find?_eq_none.1 h p hp
      exact hne ((postActive_iff id p).2 ⟨hid, hdel⟩)
    · intro _
      exact ⟨_, rfl⟩
  | some p =>
    simp only [h]
    constructor
    · rintro ⟨e, he⟩
      simp at he
    · intro hno
      exfalso
      have hq := (postActive_iff id p).1 (List.find?_some h)
      exact hno ⟨p, List.mem_of_find?_eq_some h, hq.1, hq.2⟩

theorem postFindOne_error_shape (s : PostState) (id : Nat)
    (e : ApiError) (h : PostService.findOne s id = .error e) :
    e = .notFound ("Post with ID " ++ toString id ++ " not found") := by
  unfold PostService.findOne at h
  cases hf : s.posts.find? (PostService.activeWithId id) <;>
    rw [hf] at h <;> simp_all

theorem postFindOne_ok (s : PostState) (id : Nat) (p : Post)
    (h : PostService.findOne s id = .ok p) :
    p ∈ s.posts ∧ p.id = id ∧ p.deletedAt = none := by
  unfold PostService.findOne at h
  cases hf : s.posts.find? (PostService.activeWithId id) <;> rw [hf] at h
  · simp at h
  · injection h with h
    subst h
    have hq := (postActive_iff id _).1 (List.find?_some hf)
    exact ⟨List.mem_of_find?_eq_some hf, hq.1, hq.2⟩

end NestPractice

namespace NestPractice

/-! Shape lemmas: each operation's result, by case on the embedded lookup. -/

theorem boardUpdate_of_error (s : BoardState) (id : Nat)
    (dto : UpdateBoardDto) (now : Nat) (e : ApiError)
    (hf : BoardService.findOne s id = .error e) :
    BoardService.update s id dto now = .error e := by
  unfold BoardService.update
  rw [hf]

theorem boardUpdate_of_ok (s : BoardState) (id : Nat)
    (dto : UpdateBoardDto) (now : Nat) (b : Board)
    (hf : BoardService.findOne s id = .ok b) :
    BoardService.update s id dto now =
      .ok (BoardService.applyUpdate dto now b,
        ⟨updateFirst (BoardService.activeWithId id)
            (BoardService.applyUpdate dto now) s.boards,
          s.nextId⟩) := by
  unfold BoardService.update
  rw [hf]

theorem boardRemove_of_error (s : BoardState) (id : Nat) (now : Nat)
    (e : ApiError) (hf : BoardService.findOne s id = .error e) :
    BoardService.remove s id now = .error e := by
  unfold BoardService.remove
  rw [hf]

theorem boardRemove_of_ok (s : BoardState) (id : Nat) (now : Nat)
    (b : Board) (hf : BoardService.findOne s id = .ok b) :
    BoardService.remove s id now =
      .ok ⟨updateFirst (BoardService.activeWithId id)
            (fun x => { x with deletedAt := some now }) s.boards,
          s.nextId⟩ := by
  unfold BoardService.remove
  rw [hf]

theorem PostService.create_of_error (bs : BoardState) (s : PostState)
    (dto : CreatePostDto) (now : Nat) (e : ApiError)
    (hf : BoardService.findOne bs dto.boardId = .error e) :
    PostService.create bs s dto now =
      (.error (.badRequest
          ("Board with ID " ++ toString dto.boardId ++ " not found")), s) := by
  unfold PostService.create
  rw [hf]

theorem PostService.create_of_ok (bs : BoardState) (s : PostState)
    (dto : CreatePostDto) (now : Nat) (b : Board)
    (hf : BoardService.findOne bs dto.boardId = .ok b) :
    PostService.create bs s dto now =
      (.ok (⟨s.nextId, dto.boardId, dto.title, dto.content, now, now,
          none⟩ : Post),
        ⟨s.posts ++
            [⟨s.nextId, dto.boardId, dto.title, dto.content, now, now, none⟩],
          s.nextId + 1⟩) := by
  unfold PostService.create
  rw [hf]

theorem postUpdate_of_error (s : PostState) (id : Nat)
    (dto : UpdatePostDto) (now : Nat) (e : ApiError)
    (hf : PostService.findOne s id = .error e) :
    PostService.update s id dto now = .error e := by
  unfold PostService.update
  rw [hf]

theorem postUpdate_of_ok (s : PostState) (id : Nat)
    (dto : UpdatePostDto) (now : Nat) (p : Post)
    (hf : PostService.findOne s id = .ok p) :
    PostService.update s id dto now =
      .ok (PostService.applyUpdate dto now p,
        ⟨updateFirst (PostService.activeWithId id)
            (PostService.applyUpdate dto now) s.posts,
          s.nextId⟩) := by
  unfold PostService.update
  rw [hf]

theorem postRemove_of_error (s : PostState) (id : Nat) (now : Nat)
    (e : ApiError) (hf : PostService.findOne s id = .error e) :
    PostService.remove s id now = .error e := by
  unfold PostService.remove
  rw [hf]

theorem postRemove_of_ok (s : PostState) (id : Nat) (now : Nat)
    (p : Post) (hf : PostService.findOne s id = .ok p) :
    PostService.remove s id now =
      .ok ⟨updateFirst (PostService.activeWithId id)
            (fun x => { x with deletedAt := some now }) s.posts,
          s.nextId⟩ := by
  unfold PostService.remove
  rw [hf]

end NestPractice

namespace NestPractice

/-- C1: `PostService.create(boardId=B, ...)` fails, with a BadRequest error,
exactly when the board store has no active (`deletedAt = null`) record with
id B; it never fails with NotFound; on success the returned post has
`boardId = B`, `deletedAt = null` and `createdAt = updatedAt`. -/
theorem claim_C1 (bs : BoardState) (s : PostState) (dto : CreatePostDto)
    (now : Nat) :
    ((∃ msg, (PostService.create bs s dto now).1 =
        .error (.badRequest msg)) ↔
      ¬ ∃ b ∈ bs.boards, b.id = dto.boardId ∧ b.deletedAt = none)
    ∧ (∀ p st, PostService.create bs s dto now = (.ok p, st) →
        p.boardId = dto.boardId ∧ p.deletedAt = none ∧
          p.createdAt = p.updatedAt)
    ∧ (∀ msg, (PostService.create bs s dto now).1 ≠
        .error (.notFound msg)) := by
  cases hf : BoardService.findOne bs dto.boardId with
  | error e =>
    rw [PostService.create_of_error bs s dto now e hf]
    refine ⟨⟨fun _ => (boardFindOne_error bs dto.boardId).1 ⟨e, hf⟩,
        fun _ => ⟨_, rfl⟩⟩, ?_, ?_⟩
    · intro p st h
      simp at h
    · intro msg h
      simp at h
  | ok b =>
    have hex : ∃ b2 ∈ bs.boards, b2.id = dto.boardId ∧
        b2.deletedAt = none := by
      have hq := boardFindOne_ok bs dto.boardId b hf
      exact ⟨b, hq.1, hq.2.1, hq.2.2⟩
    rw [PostService.create_of_ok bs s dto now b hf]
    refine ⟨iff_of_false ?_ (fun hno => hno hex), ?_, ?_⟩
    · rintro ⟨msg, hm⟩
      simp at hm
    · intro p st h
      simp only [Prod.mk.injEq, Except.ok.injEq] at h
      obtain ⟨rfl, -⟩ := h
      exact ⟨rfl, rfl, rfl⟩
    · intro msg h
      simp at h

/-- C1 witness: with an empty board store, creating a post under board 1
fails with BadRequest. -/
theorem claim_C1_witness :
    ∃ msg, (PostService.create ⟨[], 1⟩ ⟨[], 1⟩ ⟨1, "t", "c"⟩ 0).1 =
      .error (.badRequest msg) :=
  (claim_C1 ⟨[], 1⟩ ⟨[], 1⟩ ⟨1, "t", "c"⟩ 0).1.mpr (by decide)

/-- C2: in both stores, `findAll` returns exactly the records with
`deletedAt = null` (so never a soft-deleted one, whatever the filter), and
`findOne id` fails, with NotFound, exactly when no record with that id and
`deletedAt = null` exists; when it succeeds the record is active with the
requested id. -/
theorem claim_C2 (bs : BoardState) (ps : PostState) (id : Nat) :
    (∀ b, b ∈ BoardService.findAll bs ↔
      b ∈ bs.boards ∧ b.deletedAt = none)
    ∧ ((∃ msg, BoardService.findOne bs id = .error (.notFound msg)) ↔
        ¬ ∃ b ∈ bs.boards, b.id = id ∧ b.deletedAt = none)
    ∧ (∀ b, BoardService.findOne bs id = .ok b →
        b ∈ bs.boards ∧ b.id = id ∧ b.deletedAt = none)
    ∧ (∀ q p, p ∈ PostService.findAll ps q → p.deletedAt = none)
    ∧ (∀ p, p ∈ PostService.findAll ps none ↔
        p ∈ ps.posts ∧ p.deletedAt = none)
    ∧ ((∃ msg, PostService.findOne ps id = .error (.notFound msg)) ↔
        ¬ ∃ p ∈ ps.posts, p.id = id ∧ p.deletedAt = none)
    ∧ (∀ p, PostService.findOne ps id = .ok p →
        p ∈ ps.posts ∧ p.id = id ∧ p.deletedAt = none) := by
  refine ⟨?_, ⟨?_, ?_⟩, boardFindOne_ok bs id, ?_, ?_,
      ⟨?_, ?_⟩, postFindOne_ok ps id⟩
  · intro b
    simp [BoardService.findAll, List.mem_filter, Option.isNone_iff_eq_none]
  · rintro ⟨msg, hm⟩
    exact (boardFindOne_error bs id).1 ⟨_, hm⟩
  · intro hno
    cases hf : BoardService.findOne bs id with
    | error e =>
      refine ⟨"Board with ID " ++ toString id ++ " not found", ?_⟩
      rw [boardFindOne_error_shape bs id e hf]
    | ok b =>
      have hq := boardFindOne_ok bs id b hf
      exact absurd ⟨b, hq.1, hq.2.1, hq.2.2⟩ hno
  · intro q p hp
    cases q with
    | none =>
      obtain ⟨-, h2⟩ := List.mem_filter.1 hp
      exact Option.isNone_iff_eq_none.1 h2
    | some bid =>
      obtain ⟨-, h2⟩ := List.mem_filter.1 hp
      exact Option.isNone_iff_eq_none.1 (Bool.and_elim_right h2)
  · intro p
    simp [PostService.findAll, List.mem_filter, Option.isNone_iff_eq_none]
  · rintro ⟨msg, hm⟩
    exact (postFindOne_error ps id).1 ⟨_, hm⟩
  · intro hno
    cases hf : PostService.findOne ps id with
    | error e =>
      refine ⟨"Post with ID " ++ toString id ++ " not found", ?_⟩
      rw [postFindOne_error_shape ps id e hf]
    | ok p =>
      have hq := postFindOne_ok ps id p hf
      exact absurd ⟨p, hq.1, hq.2.1, hq.2.2⟩ hno

/-- C2 witness: `findOne` on the id of a soft-deleted board reports
NotFound. -/
theorem claim_C2_witness :
    ∃ msg, BoardService.findOne ⟨[⟨1, "t", "d", 0, 0, some 3⟩], 2⟩ 1 =
      .error (.notFound msg) :=
  (claim_C2 ⟨[⟨1, "t", "d", 0, 0, some 3⟩], 2⟩ ⟨[], 1⟩ 1).2.1.mpr
    (by decide)

/-- C8: a failing `PostService.create` leaves the post store untouched: the
array and the `nextId` counter are exactly the entry state, any later create
behaves as if the failing call never happened, and a successful create on
that state still receives the id the counter held before the failure. -/
theorem claim_C8 (bs : BoardState) (s : PostState) (dto : CreatePostDto)
    (now : Nat) (e : ApiError)
    (h : (PostService.create bs s dto now).1 = .error e) :
    (PostService.create bs s dto now).2 = s
    ∧ (∀ bs2 dto2 now2,
        PostService.create bs2 (PostService.create bs s dto now).2 dto2
            now2 =
          PostService.create bs2 s dto2 now2)
    ∧ (∀ bs2 dto2 now2 p st,
        PostService.create bs2 s dto2 now2 = (.ok p, st) →
          p.id = s.nextId) := by
  cases hf : BoardService.findOne bs dto.boardId with
  | ok b =>
    rw [PostService.create_of_ok bs s dto now b hf] at h
    simp at h
  | error e2 =>
    rw [PostService.create_of_error bs s dto now e2 hf]
    refine ⟨rfl, fun bs2 dto2 now2 => rfl, ?_⟩
    intro bs2 dto2 now2 p st h2
    cases hf2 : BoardService.findOne bs2 dto2.boardId with
    | error e3 =>
      rw [PostService.create_of_error bs2 s dto2 now2 e3 hf2] at h2
      simp at h2
    | ok b2 =>
      rw [PostService.create_of_ok bs2 s dto2 now2 b2 hf2] at h2
      simp only [Prod.mk.injEq, Except.ok.injEq] at h2
      obtain ⟨rfl, -⟩ := h2
      rfl

/-- C8 witness: the failing create on the empty stores keeps the post store
at `⟨[], 1⟩`, and the next successful create would still get id 1. -/
theorem claim_C8_witness :
    (PostService.create ⟨[], 1⟩ ⟨[], 1⟩ ⟨1, "t", "c"⟩ 0).2 = ⟨[], 1⟩
    ∧ (∀ bs2 dto2 now2,
        PostService.create bs2
            (PostService.create ⟨[], 1⟩ ⟨[], 1⟩ ⟨1, "t", "c"⟩ 0).2 dto2
            now2 =
          PostService.create bs2 ⟨[], 1⟩ dto2 now2)
    ∧ (∀ bs2 dto2 now2 p st,
        PostService.create bs2 ⟨[], 1⟩ dto2 now2 = (.ok p, st) →
          p.id = (⟨[], 1⟩ : PostState).nextId) :=
  claim_C8 ⟨[], 1⟩ ⟨[], 1⟩ ⟨1, "t", "c"⟩ 0
    (.badRequest "Board with ID 1 not found") rfl

end NestPractice

namespace NestPractice

/-- C5: the Query Façade behind `GET /boards/{id}/posts` returns exactly the
posts whose `boardId` equals the path id, in stored order (a sublist of the
post array). -/
theorem claim_C5 (ps : PostState) (id : Nat) :
    (∀ p, p ∈ searchPostsByBoard ps id ↔
      p ∈ ps.posts ∧ p.boardId = id)
    ∧ List.Sublist (searchPostsByBoard ps id) ps.posts := by
  refine ⟨?_, List.filter_sublist ps.posts⟩
  intro p
  simp [searchPostsByBoard, List.mem_filter]

/-- C5 witness: a store holding the single post of board 1; the façade query
for board 1 contains that post. -/
theorem claim_C5_witness :
    (⟨1, 1, "t", "c", 0, 0, none⟩ : Post) ∈
      searchPostsByBoard ⟨[⟨1, 1, "t", "c", 0, 0, none⟩], 2⟩ 1 :=
  ((claim_C5 ⟨[⟨1, 1, "t", "c", 0, 0, none⟩], 2⟩ 1).1 _).mpr
    ⟨by simp, rfl⟩

/-- C6: on an existing active record, update overwrites exactly the provided
(not absent, not explicitly null) fields, always stamps `updatedAt = now`,
and leaves id, createdAt, deletedAt, the untouched input fields, the array
length and the `nextId` counter unchanged — in both stores. -/
theorem claim_C6 :
    (∀ (s : BoardState) (id : Nat) (dto : UpdateBoardDto) (now : Nat)
        (b : Board), BoardService.findOne s id = .ok b →
      ∃ b2 s2, BoardService.update s id dto now = .ok (b2, s2)
        ∧ b2.id = b.id ∧ b2.createdAt = b.createdAt
        ∧ b2.deletedAt = b.deletedAt ∧ b2.updatedAt = now
        ∧ (∀ t, dto.title = some (some t) → b2.title = t)
        ∧ ((dto.title = none ∨ dto.title = some none) →
            b2.title = b.title)
        ∧ (∀ d, dto.description = some (some d) → b2.description = d)
        ∧ ((dto.description = none ∨ dto.description = some none) →
            b2.description = b.description)
        ∧ s2.nextId = s.nextId ∧ s2.boards.length = s.boards.length)
    ∧ (∀ (s : PostState) (id : Nat) (dto : UpdatePostDto) (now : Nat)
        (p : Post), PostService.findOne s id = .ok p →
      ∃ p2 s2, PostService.update s id dto now = .ok (p2, s2)
        ∧ p2.id = p.id ∧ p2.boardId = p.boardId
        ∧ p2.createdAt = p.createdAt ∧ p2.deletedAt = p.deletedAt
        ∧ p2.updatedAt = now
        ∧ (∀ t, dto.title = some (some t) → p2.title = t)
        ∧ ((dto.title = none ∨ dto.title = some none) →
            p2.title = p.title)
        ∧ (∀ c, dto.content = some (some c) → p2.content = c)
        ∧ ((dto.content = none ∨ dto.content = some none) →
            p2.content = p.content)
        ∧ s2.nextId = s.nextId ∧ s2.posts.length = s.posts.length) := by
  constructor
  · intro s id dto now b hf
    refine ⟨_, _, boardUpdate_of_ok s id dto now b hf, rfl, rfl,
        rfl, rfl, ?_, ?_, ?_, ?_, rfl, updateFirst_length _ _ _⟩
    · intro t ht
      simp [BoardService.applyUpdate, ht]
    · rintro (ht | ht) <;> simp [BoardService.applyUpdate, ht]
    · intro d hd
      simp [BoardService.applyUpdate, hd]
    · rintro (hd | hd) <;> simp [BoardService.applyUpdate, hd]
  · intro s id dto now p hf
    refine ⟨_, _, postUpdate_of_ok s id dto now p hf, rfl, rfl,
        rfl, rfl, rfl, ?_, ?_, ?_, ?_, rfl, updateFirst_length _ _ _⟩
    · intro t ht
      simp [PostService.applyUpdate, ht]
    · rintro (ht | ht) <;> simp [PostService.applyUpdate, ht]
    · intro c hc
      simp [PostService.applyUpdate, hc]
    · rintro (hc | hc) <;> simp [PostService.applyUpdate, hc]

/-- C6 witness: updating board 1 with `{title: "X"}` (description absent)
yields title "X", keeps createdAt 3, stamps updatedAt 7. -/
theorem claim_C6_witness :
    ∃ b2 s2,
      BoardService.update ⟨[⟨1, "t", "d", 3, 3, none⟩], 2⟩ 1
          ⟨some (some "X"), none⟩ 7 = .ok (b2, s2)
      ∧ b2.title = "X" ∧ b2.createdAt = 3 ∧ b2.updatedAt = 7 := by
  obtain ⟨b2, s2, h1, -, hc, -, hu, ht, -, -, -, -, -⟩ :=
    claim_C6.1 ⟨[⟨1, "t", "d", 3, 3, none⟩], 2⟩ 1 ⟨some (some "X"), none⟩
      7 ⟨1, "t", "d", 3, 3, none⟩ rfl
  exact ⟨b2, s2, h1, ht "X" rfl, hc, hu⟩

end NestPractice

namespace NestPractice

/-! Reachable-state machinery: over any run of operations, ids are the
positions shifted by one and `nextId` is the array length plus one. -/

theorem seqIds_append {α : Type} (idf : α → Nat) (l : List α) (x : α)
    (h : ∀ i a, l[i]? = some a → idf a = i + 1)
    (hx : idf x = l.length + 1) :
    ∀ i a, (l ++ [x])[i]? = some a → idf a = i + 1 := by
  intro i a ha
  rcases lt_trichotomy i l.length with hlt | heq | hgt
  · rw [List.getElem?_append, if_pos hlt] at ha
    exact h i a ha
  · subst heq
    rw [List.getElem?_concat_length] at ha
    injection ha with ha
    rw [← ha]
    exact hx
  · rw [List.getElem?_eq_none (by simp; omega)] at ha
    cases ha

theorem seqIds_updateFirst {α : Type} (idf : α → Nat) (p : α → Bool)
    (f : α → α) (hf : ∀ a, idf (f a) = idf a) (l : List α)
    (h : ∀ i a, l[i]? = some a → idf a = i + 1) :
    ∀ i a, (updateFirst p f l)[i]? = some a → idf a = i + 1 := by
  intro i a ha
  rcases updateFirst_getElem? p f l i with he | ⟨x, hx, -, he⟩
  · rw [he] at ha
    exact h i a ha
  · rw [he] at ha
    injection ha with ha
    rw [← ha, hf]
    exact h i x hx

theorem appStep_inv (s : AppState) (op : Op)
    (h1 : s.boardS.nextId = s.boardS.boards.length + 1)
    (h2 : ∀ i b, s.boardS.boards[i]? = some b → b.id = i + 1)
    (h3 : s.postS.nextId = s.postS.posts.length + 1)
    (h4 : ∀ i p, s.postS.posts[i]? = some p → p.id = i + 1) :
    (appStep s op).boardS.nextId = (appStep s op).boardS.boards.length + 1
    ∧ (∀ i b, (appStep s op).boardS.boards[i]? = some b → b.id = i + 1)
    ∧ (appStep s op).postS.nextId = (appStep s op).postS.posts.length + 1
    ∧ (∀ i p, (appStep s op).postS.posts[i]? = some p → p.id = i + 1) := by
  cases op with
  | boardCreate t d now =>
    refine ⟨?_, ?_, h3, h4⟩
    · simp [appStep, BoardService.create, h1]
    · simp only [appStep, BoardService.create]
      exact seqIds_append Board.id s.boardS.boards _ h2 (by simp [h1])
  | boardList => exact ⟨h1, h2, h3, h4⟩
  | boardGet id => exact ⟨h1, h2, h3, h4⟩
  | boardUpdate id dto now =>
    cases hfo : BoardService.findOne s.boardS id with
    | error e =>
      simp only [appStep, boardUpdate_of_error _ _ dto now e hfo]
      exact ⟨h1, h2, h3, h4⟩
    | ok b =>
      simp only [appStep, boardUpdate_of_ok _ _ dto now b hfo]
      refine ⟨?_, ?_, h3, h4⟩
      · simp [updateFirst_length, h1]
      · exact seqIds_updateFirst Board.id (BoardService.activeWithId id)
          (BoardService.applyUpdate dto now) (fun a => rfl)
          s.boardS.boards h2
  | boardRemove id now =>
    cases hfo : BoardService.findOne s.boardS id with
    | error e =>
      simp only [appStep, boardRemove_of_error _ _ now e hfo]
      exact ⟨h1, h2, h3, h4⟩
    | ok b =>
      simp only [appStep, boardRemove_of_ok _ _ now b hfo]
      refine ⟨?_, ?_, h3, h4⟩
      · simp [updateFirst_length, h1]
      · exact seqIds_updateFirst Board.id (BoardService.activeWithId id)
          (fun x => { x with deletedAt := some now }) (fun a => rfl)
          s.boardS.boards h2
  | postCreate bid t c now =>
    cases hfo : BoardService.findOne s.boardS bid with
    | error e =>
      simp only [appStep,
        PostService.create_of_error s.boardS s.postS ⟨bid, t, c⟩ now e hfo]
      exact ⟨h1, h2, h3, h4⟩
    | ok b =>
      simp only [appStep,
        PostService.create_of_ok s.boardS s.postS ⟨bid, t, c⟩ now b hfo]
      refine ⟨h1, h2, ?_, ?_⟩
      · simp [h3]
      · exact seqIds_append Post.id s.postS.posts _ h4 (by simp [h3])
  | postList q => exact ⟨h1, h2, h3, h4⟩
  | postGet id => exact ⟨h1, h2, h3, h4⟩
  | postUpdate id dto now =>
    cases hfo : PostService.findOne s.postS id with
    | error e =>
      simp only [appStep, postUpdate_of_error _ _ dto now e hfo]
      exact ⟨h1, h2, h3, h4⟩
    | ok p =>
      simp only [appStep, postUpdate_of_ok _ _ dto now p hfo]
      refine ⟨h1, h2, ?_, ?_⟩
      · simp [updateFirst_length, h3]
      · exact seqIds_updateFirst Post.id (PostService.activeWithId id)
          (PostService.applyUpdate dto now) (fun a => rfl)
          s.postS.posts h4
  | postRemove id now =>
    cases hfo : PostService.findOne s.postS id with
    | error e =>
      simp only [appStep, postRemove_of_error _ _ now e hfo]
      exact ⟨h1, h2, h3, h4⟩
    | ok p =>
      simp only [appStep, postRemove_of_ok _ _ now p hfo]
      refine ⟨h1, h2, ?_, ?_⟩
      · simp [updateFirst_length, h3]
      · exact seqIds_updateFirst Post.id (PostService.activeWithId id)
          (fun x => { x with deletedAt := some now }) (fun a => rfl)
          s.postS.posts h4

theorem foldl_inv (ops : List Op) (s : AppState)
    (h1 : s.boardS.nextId = s.boardS.boards.length + 1)
    (h2 : ∀ i b, s.boardS.boards[i]? = some b → b.id = i + 1)
    (h3 : s.postS.nextId = s.postS.posts.length + 1)
    (h4 : ∀ i p, s.postS.posts[i]? = some p → p.id = i + 1) :
    (ops.foldl appStep s).boardS.nextId =
        (ops.foldl appStep s).boardS.boards.length + 1
    ∧ (∀ i b, (ops.foldl appStep s).boardS.boards[i]? = some b →
        b.id = i + 1)
    ∧ (ops.foldl appStep s).postS.nextId =
        (ops.foldl appStep s).postS.posts.length + 1
    ∧ (∀ i p, (ops.foldl appStep s).postS.posts[i]? = some p →
        p.id = i + 1) := by
  induction ops generalizing s with
  | nil => exact ⟨h1, h2, h3, h4⟩
  | cons op l ih =>
    rw [List.foldl_cons]
    obtain ⟨g1, g2, g3, g4⟩ := appStep_inv s op h1 h2 h3 h4
    exact ih _ g1 g2 g3 g4

theorem appRun_inv (ops : List Op) :
    (appRun ops).boardS.nextId = (appRun ops).boardS.boards.length + 1
    ∧ (∀ i b, (appRun ops).boardS.boards[i]? = some b → b.id = i + 1)
    ∧ (appRun ops).postS.nextId = (appRun ops).postS.posts.length + 1
    ∧ (∀ i p, (appRun ops).postS.posts[i]? = some p → p.id = i + 1) := by
  refine foldl_inv ops _ rfl ?_ rfl ?_ <;> intro i a ha <;>
    simp [BoardService.init, PostService.init] at ha

theorem appStep_board_length (s : AppState) (op : Op) :
    (appStep s op).boardS.boards.length =
      s.boardS.boards.length + (if Op.isBoardCreate op then 1 else 0) := by
  cases op with
  | boardCreate t d now =>
    simp [appStep, BoardService.create, Op.isBoardCreate]
  | boardList => simp [appStep, Op.isBoardCreate]
  | boardGet id => simp [appStep, Op.isBoardCreate]
  | boardUpdate id dto now =>
    cases hfo : BoardService.findOne s.boardS id with
    | error e =>
      simp [appStep, boardUpdate_of_error _ _ dto now e hfo,
        Op.isBoardCreate]
    | ok b =>
      simp [appStep, boardUpdate_of_ok _ _ dto now b hfo,
        Op.isBoardCreate, updateFirst_length]
  | boardRemove id now =>
    cases hfo : BoardService.findOne s.boardS id with
    | error e =>
      simp [appStep, boardRemove_of_error _ _ now e hfo,
        Op.isBoardCreate]
    | ok b =>
      simp [appStep, boardRemove_of_ok _ _ now b hfo,
        Op.isBoardCreate, updateFirst_length]
  | postCreate bid t c now =>
    cases hfo : BoardService.findOne s.boardS bid with
    | error e =>
      simp [appStep,
        PostService.create_of_error s.boardS s.postS ⟨bid, t, c⟩ now e hfo,
        Op.isBoardCreate]
    | ok b =>
      simp [appStep,
        PostService.create_of_ok s.boardS s.postS ⟨bid, t, c⟩ now b hfo,
        Op.isBoardCreate]
  | postList q => simp [appStep, Op.isBoardCreate]
  | postGet id => simp [appStep, Op.isBoardCreate]
  | postUpdate id dto now =>
    cases hfo : PostService.findOne s.postS id with
    | error e =>
      simp [appStep, postUpdate_of_error _ _ dto now e hfo,
        Op.isBoardCreate]
    | ok p =>
      simp [appStep, postUpdate_of_ok _ _ dto now p hfo,
        Op.isBoardCreate]
  | postRemove id now =>
    cases hfo : PostService.findOne s.postS id with
    | error e =>
      simp [appStep, postRemove_of_error _ _ now e hfo,
        Op.isBoardCreate]
    | ok p =>
      simp [appStep, postRemove_of_ok _ _ now p hfo,
        Op.isBoardCreate]

theorem foldl_board_length (ops : List Op) (s : AppState) :
    (ops.foldl appStep s).boardS.boards.length =
      s.boardS.boards.length + ops.countP Op.isBoardCreate := by
  induction ops generalizing s with
  | nil => simp
  | cons op l ih =>
    rw [List.foldl_cons, ih, appStep_board_length, List.countP_cons]
    by_cases hc : Op.isBoardCreate op <;> (simp [hc]; try omega)

end NestPractice

namespace NestPractice

/-- C3: over any run of operations (creates with interleaved reads, updates
and removes), each store's records sit in creation order with record `i`
(0-indexed position) carrying id `i + 1`: ids start at 1, are sequential and
pairwise distinct, the board array length equals the number of board-create
calls, and `nextId` stays one past the largest ever assigned id, so ids are
never reused even after soft-deletion. -/
theorem claim_C3 (ops : List Op) :
    (appRun ops).boardS.nextId = (appRun ops).boardS.boards.length + 1
    ∧ (∀ i b, (appRun ops).boardS.boards[i]? = some b → b.id = i + 1)
    ∧ (appRun ops).boardS.boards.length = ops.countP Op.isBoardCreate
    ∧ (∀ (i j : Nat) (b c : Board), (appRun ops).boardS.boards[i]? = some b →
        (appRun ops).boardS.boards[j]? = some c → i ≠ j → b.id ≠ c.id)
    ∧ (appRun ops).postS.nextId = (appRun ops).postS.posts.length + 1
    ∧ (∀ i p, (appRun ops).postS.posts[i]? = some p → p.id = i + 1)
    ∧ (∀ (i j : Nat) (p q : Post), (appRun ops).postS.posts[i]? = some p →
        (appRun ops).postS.posts[j]? = some q → i ≠ j → p.id ≠ q.id) := by
  obtain ⟨h1, h2, h3, h4⟩ := appRun_inv ops
  refine ⟨h1, h2, ?_, ?_, h3, h4, ?_⟩
  · have hl := foldl_board_length ops ⟨BoardService.init, PostService.init⟩
    simpa [appRun, BoardService.init] using hl
  · intro i j b c hb hc hne
    rw [h2 i b hb, h2 j c hc]
    omega
  · intro i j p q hp hq hne
    rw [h4 i p hp, h4 j q hq]
    omega

/-- C3 witness: after two board creates, the record at position 1 carries
id 2. -/
theorem claim_C3_witness :
    (⟨2, "b", "e", 1, 1, none⟩ : Board).id = 1 + 1 :=
  (claim_C3 [Op.boardCreate "a" "d" 0, Op.boardCreate "b" "e" 1]).2.1 1
    ⟨2, "b", "e", 1, 1, none⟩ (by decide)

/-- C7: `PostService.findAll (some B1)` returns exactly the active posts of
board B1, in stored order, and none of a different board B2; `findAll none`
returns exactly the active posts, in stored order; over any run the stored
order is creation order (ids strictly increase along every findAll
result). -/
theorem claim_C7 (s : PostState) (b1 b2 : Nat) (h : b1 ≠ b2) :
    (∀ p, p ∈ PostService.findAll s (some b1) ↔
      p ∈ s.posts ∧ p.boardId = b1 ∧ p.deletedAt = none)
    ∧ (∀ p ∈ PostService.findAll s (some b1), p.boardId ≠ b2)
    ∧ List.Sublist (PostService.findAll s (some b1)) s.posts
    ∧ (∀ p, p ∈ PostService.findAll s none ↔
        p ∈ s.posts ∧ p.deletedAt = none)
    ∧ List.Sublist (PostService.findAll s none) s.posts
    ∧ (∀ ops q, List.Pairwise (fun x y => x.id < y.id)
        (PostService.findAll (appRun ops).postS q)) := by
  refine ⟨?_, ?_, ?_, ?_, ?_, ?_⟩
  · intro p
    simp [PostService.findAll, List.mem_filter,
      Option.isNone_iff_eq_none, and_assoc]
  · intro p hp
    simp only [PostService.findAll, List.mem_filter, Bool.and_eq_true,
      beq_iff_eq, Option.isNone_iff_eq_none] at hp
    rw [hp.2.1]
    exact h
  · simp only [PostService.findAll]
    exact List.filter_sublist s.posts
  · intro p
    simp [PostService.findAll, List.mem_filter, Option.isNone_iff_eq_none]
  · simp only [PostService.findAll]
    exact List.filter_sublist s.posts
  · intro ops q
    have h4 := (appRun_inv ops).2.2.2
    have hfull : List.Pairwise (fun x y => x.id < y.id)
        (appRun ops).postS.posts := by
      rw [List.pairwise_iff_getElem]
      intro i j hi hj hij
      have hx := h4 i _ (List.getElem?_eq_getElem hi)
      have hy := h4 j _ (List.getElem?_eq_getElem hj)
      rw [hx, hy]
      omega
    have hsub : List.Sublist (PostService.findAll (appRun ops).postS q)
        (appRun ops).postS.posts := by
      cases q <;> simp only [PostService.findAll] <;>
        exact List.filter_sublist _
    exact hfull.sublist hsub

/-- C7 witness: with posts of boards 1 and 2 in store, the board-1 filter
contains board-1's post. -/
theorem claim_C7_witness :
    (⟨1, 1, "t", "c", 0, 0, none⟩ : Post) ∈
      PostService.findAll ⟨[⟨1, 1, "t", "c", 0, 0, none⟩,
          ⟨2, 2, "u", "v", 0, 0, none⟩], 3⟩ (some 1) :=
  ((claim_C7 ⟨[⟨1, 1, "t", "c", 0, 0, none⟩, ⟨2, 2, "u", "v", 0, 0, none⟩],
      3⟩ 1 2 (by decide)).1 _).mpr ⟨by simp, rfl, rfl⟩

end NestPractice

namespace NestPractice

theorem boardActive_false (id : Nat) (b : Board)
    (hd : b.deletedAt ≠ none) :
    BoardService.activeWithId id b = false := by
  cases hdb : b.deletedAt with
  | none => exact absurd hdb hd
  | some d => simp [BoardService.activeWithId, hdb]

theorem postActive_false (id : Nat) (p : Post)
    (hd : p.deletedAt ≠ none) :
    PostService.activeWithId id p = false := by
  cases hdb : p.deletedAt with
  | none => exact absurd hdb hd
  | some d => simp [PostService.activeWithId, hdb]

theorem boardTitles_step (s : AppState) (op : Op)
    (hop : op.boardTitlesNonempty)
    (h : ∀ b ∈ s.boardS.boards, b.title ≠ "") :
    ∀ b ∈ (appStep s op).boardS.boards, b.title ≠ "" := by
  cases op with
  | boardCreate t d now =>
    intro b hb
    simp only [appStep, BoardService.create, List.mem_append,
      List.mem_singleton] at hb
    rcases hb with hb | rfl
    · exact h b hb
    · exact hop
  | boardList => exact h
  | boardGet id => exact h
  | boardUpdate id dto now =>
    cases hfo : BoardService.findOne s.boardS id with
    | error e =>
      simp only [appStep, boardUpdate_of_error _ _ dto now e hfo]
      exact h
    | ok b0 =>
      simp only [appStep, boardUpdate_of_ok _ _ dto now b0 hfo]
      intro b hb
      rcases updateFirst_mem hb with hmem | ⟨x, hx, -, rfl⟩
      · exact h b hmem
      · cases ht : dto.title with
        | none => simpa [BoardService.applyUpdate, ht] using h x hx
        | some o =>
          cases o with
          | none => simpa [BoardService.applyUpdate, ht] using h x hx
          | some t =>
            simpa [BoardService.applyUpdate, ht] using hop t ht
  | boardRemove id now =>
    cases hfo : BoardService.findOne s.boardS id with
    | error e =>
      simp only [appStep, boardRemove_of_error _ _ now e hfo]
      exact h
    | ok b0 =>
      simp only [appStep, boardRemove_of_ok _ _ now b0 hfo]
      intro b hb
      rcases updateFirst_mem hb with hmem | ⟨x, hx, -, rfl⟩
      · exact h b hmem
      · exact h x hx
  | postCreate bid t c now =>
    cases hfo : BoardService.findOne s.boardS bid with
    | error e =>
      simp only [appStep,
        PostService.create_of_error s.boardS s.postS ⟨bid, t, c⟩ now e hfo]
      exact h
    | ok b0 =>
      simp only [appStep,
        PostService.create_of_ok s.boardS s.postS ⟨bid, t, c⟩ now b0 hfo]
      exact h
  | postList q => exact h
  | postGet id => exact h
  | postUpdate id dto now =>
    cases hfu : PostService.update s.postS id dto now with
    | error e =>
      simp only [appStep, hfu]
      exact h
    | ok r =>
      obtain ⟨p2, ps2⟩ := r
      simp only [appStep, hfu]
      exact h
  | postRemove id now =>
    cases hfu : PostService.remove s.postS id now with
    | error e =>
      simp only [appStep, hfu]
      exact h
    | ok ps2 =>
      simp only [appStep, hfu]
      exact h

/-- C9 counterexample: `BoardService.create` performs no validation, so a
create call carrying the empty title puts a record with empty title into the
store — the claim "every record ever present has a non-empty title" fails. -/
theorem claim_C9_counterexample :
    ∃ b ∈ (appRun [Op.boardCreate "" "d" 0]).boardS.boards,
      b.title = "" := by
  refine ⟨⟨1, "", "d", 0, 0, none⟩, ?_, rfl⟩
  decide

/-- C9 (amended): the store never invents an empty title — provided every
board create carries a non-empty title and every board update either omits
the title or carries a non-empty one, every record in every reachable store
state has a non-empty title. The store itself does not enforce this. -/
theorem claim_C9_amended (ops : List Op)
    (h : ∀ op ∈ ops, op.boardTitlesNonempty) :
    ∀ b ∈ (appRun ops).boardS.boards, b.title ≠ "" := by
  have key : ∀ (l : List Op) (s : AppState),
      (∀ op ∈ l, op.boardTitlesNonempty) →
      (∀ b ∈ s.boardS.boards, b.title ≠ "") →
      ∀ b ∈ (l.foldl appStep s).boardS.boards, b.title ≠ "" := by
    intro l
    induction l with
    | nil => intro s _ hs; exact hs
    | cons op l2 ih =>
      intro s hl hs
      rw [List.foldl_cons]
      exact ih _ (fun o ho => hl o (List.mem_cons_of_mem op ho))
        (boardTitles_step s op (hl op (List.mem_cons_self op l2)) hs)
  refine key ops _ h ?_
  intro b hb
  simp [BoardService.init] at hb

/-- C9 witness: a run whose single create carries title "A"; the stored
record's title is non-empty. -/
theorem claim_C9_witness :
    (⟨1, "A", "d", 0, 0, none⟩ : Board).title ≠ "" :=
  claim_C9_amended [Op.boardCreate "A" "d" 0]
    (by
      intro op hop
      simp only [List.mem_singleton] at hop
      subst hop
      show ("A" : String) ≠ ""
      decide)
    ⟨1, "A", "d", 0, 0, none⟩ (by decide)

theorem appStep_frozen (s : AppState) (op : Op) :
    (∀ (i : Nat) (b : Board), s.boardS.boards[i]? = some b →
      b.deletedAt ≠ none → (appStep s op).boardS.boards[i]? = some b)
    ∧ (∀ (i : Nat) (p : Post), s.postS.posts[i]? = some p →
      p.deletedAt ≠ none → (appStep s op).postS.posts[i]? = some p) := by
  cases op with
  | boardCreate t d now =>
    refine ⟨?_, fun i p hp _ => hp⟩
    intro i b hb hd
    have hlt : i < s.boardS.boards.length := (List.getElem?_eq_some.1 hb).1
    simp only [appStep, BoardService.create]
    rw [List.getElem?_append, if_pos hlt]
    exact hb
  | boardList => exact ⟨fun i b hb _ => hb, fun i p hp _ => hp⟩
  | boardGet id => exact ⟨fun i b hb _ => hb, fun i p hp _ => hp⟩
  | boardUpdate id dto now =>
    cases hfo : BoardService.findOne s.boardS id with
    | error e =>
      simp only [appStep, boardUpdate_of_error _ _ dto now e hfo]
      exact ⟨fun i b hb _ => hb, fun i p hp _ => hp⟩
    | ok b0 =>
      simp only [appStep, boardUpdate_of_ok _ _ dto now b0 hfo]
      refine ⟨?_, fun i p hp _ => hp⟩
      intro i b hb hd
      exact updateFirst_getElem?_of_neg hb
        (boardActive_false id b hd)
  | boardRemove id now =>
    cases hfo : BoardService.findOne s.boardS id with
    | error e =>
      simp only [appStep, boardRemove_of_error _ _ now e hfo]
      exact ⟨fun i b hb _ => hb, fun i p hp _ => hp⟩
    | ok b0 =>
      simp only [appStep, boardRemove_of_ok _ _ now b0 hfo]
      refine ⟨?_, fun i p hp _ => hp⟩
      intro i b hb hd
      exact updateFirst_getElem?_of_neg hb
        (boardActive_false id b hd)
  | postCreate bid t c now =>
    cases hfo : BoardService.findOne s.boardS bid with
    | error e =>
      simp only [appStep,
        PostService.create_of_error s.boardS s.postS ⟨bid, t, c⟩ now e hfo]
      exact ⟨fun i b hb _ => hb, fun i p hp _ => hp⟩
    | ok b0 =>
      simp only [appStep,
        PostService.create_of_ok s.boardS s.postS ⟨bid, t, c⟩ now b0 hfo]
      refine ⟨fun i b hb _ => hb, ?_⟩
      intro i p hp hd
      have hlt : i < s.postS.posts.length := (List.getElem?_eq_some.1 hp).1
      rw [List.getElem?_append, if_pos hlt]
      exact hp
  | postList q => exact ⟨fun i b hb _ => hb, fun i p hp _ => hp⟩
  | postGet id => exact ⟨fun i b hb _ => hb, fun i p hp _ => hp⟩
  | postUpdate id dto now =>
    cases hfo : PostService.findOne s.postS id with
    | error e =>
      simp only [appStep, postUpdate_of_error _ _ dto now e hfo]
      exact ⟨fun i b hb _ => hb, fun i p hp _ => hp⟩
    | ok p0 =>
      simp only [appStep, postUpdate_of_ok _ _ dto now p0 hfo]
      refine ⟨fun i b hb _ => hb, ?_⟩
      intro i p hp hd
      exact updateFirst_getElem?_of_neg hp
        (postActive_false id p hd)
  | postRemove id now =>
    cases hfo : PostService.findOne s.postS id with
    | error e =>
      simp only [appStep, postRemove_of_error _ _ now e hfo]
      exact ⟨fun i b hb _ => hb, fun i p hp _ => hp⟩
    | ok p0 =>
      simp only [appStep, postRemove_of_ok _ _ now p0 hfo]
      refine ⟨fun i b hb _ => hb, ?_⟩
      intro i p hp hd
      exact updateFirst_getElem?_of_neg hp
        (postActive_false id p hd)

/-- C10 (implicit): a soft-deleted record is frozen — whatever operations
follow, the record is still at its position with all fields (including its
`deletedAt` stamp) unchanged, because every mutation resolves its target
through the active-only `findOne` predicate and create only appends. -/
theorem claim_C10 (s : AppState) (ops : List Op) :
    (∀ (i : Nat) (b : Board), s.boardS.boards[i]? = some b →
      b.deletedAt ≠ none →
      (ops.foldl appStep s).boardS.boards[i]? = some b)
    ∧ (∀ (i : Nat) (p : Post), s.postS.posts[i]? = some p →
      p.deletedAt ≠ none →
      (ops.foldl appStep s).postS.posts[i]? = some p) := by
  induction ops generalizing s with
  | nil => exact ⟨fun i b hb _ => hb, fun i p hp _ => hp⟩
  | cons op l ih =>
    rw [List.foldl_cons]
    refine ⟨?_, ?_⟩
    · intro i b hb hd
      exact (ih (appStep s op)).1 i b ((appStep_frozen s op).1 i b hb hd) hd
    · intro i p hp hd
      exact (ih (appStep s op)).2 i p ((appStep_frozen s op).2 i p hp hd) hd

/-- C10 witness: a soft-deleted board survives a later update targeting its
id, byte-for-byte. -/
theorem claim_C10_witness :
    ([Op.boardUpdate 1 ⟨some (some "X"), none⟩ 5].foldl appStep
        ⟨⟨[⟨1, "t", "d", 0, 0, some 3⟩], 2⟩, ⟨[], 1⟩⟩).boardS.boards[0]? =
      some ⟨1, "t", "d", 0, 0, some 3⟩ :=
  (claim_C10 ⟨⟨[⟨1, "t", "d", 0, 0, some 3⟩], 2⟩, ⟨[], 1⟩⟩
      [Op.boardUpdate 1 ⟨some (some "X"), none⟩ 5]).1 0
    ⟨1, "t", "d", 0, 0, some 3⟩ rfl (by decide)

theorem appStep_boardRemove_postS (s : AppState) (bid now : Nat) :
    (appStep s (Op.boardRemove bid now)).postS = s.postS := by
  simp only [appStep]
  cases BoardService.remove s.boardS bid now <;> rfl

/-- C4: soft-deleting a board touches only the board store: the post store
is untouched, so `PostService.findOne` on a pre-existing post still returns
it unchanged and every `findAll` (any filter) returns exactly what it did
before the board removal. -/
theorem claim_C4 (s : AppState) (bid now pid : Nat) (p : Post)
    (h : PostService.findOne s.postS pid = .ok p) :
    (appStep s (Op.boardRemove bid now)).postS = s.postS
    ∧ PostService.findOne (appStep s (Op.boardRemove bid now)).postS pid =
        .ok p
    ∧ ∀ q, PostService.findAll (appStep s (Op.boardRemove bid now)).postS
        q = PostService.findAll s.postS q := by
  rw [appStep_boardRemove_postS]
  exact ⟨rfl, h, fun q => rfl⟩

/-- C4 witness: board 1 holds post 1; after removing board 1, `findOne 1` on
the post store still returns the post. -/
theorem claim_C4_witness :
    PostService.findOne
        (appStep ⟨⟨[⟨1, "A", "d", 0, 0, none⟩], 2⟩,
            ⟨[⟨1, 1, "t", "c", 0, 0, none⟩], 2⟩⟩
          (Op.boardRemove 1 5)).postS 1 =
      .ok ⟨1, 1, "t", "c", 0, 0, none⟩ :=
  (claim_C4 ⟨⟨[⟨1, "A", "d", 0, 0, none⟩], 2⟩,
      ⟨[⟨1, 1, "t", "c", 0, 0, none⟩], 2⟩⟩ 1 5 1
    ⟨1, 1, "t", "c", 0, 0, none⟩ rfl).2.1

end NestPractice
